import Mathlib

/-!
Verification of the owensquote repository core: the interview store,
quote-provider response cleaning, email dispatcher and orchestrator.

Strings from the JavaScript source are embedded as lists of characters
(`Str`); every function is a direct translation of the corresponding
source function, with external library calls (URL parsing, SMTP, the AI
backends, `Math.random`, the file system) turned into explicit
parameters.
-/

deriving instance DecidableEq for Except

namespace Owens

abbrev Str := List Char

/-- JavaScript `\s` (and `String.prototype.trim`) whitespace class:
space, tab, LF, VT, FF, CR, NBSP, and the Unicode space separators,
line/paragraph separators and BOM. -/
def isJsWs (c : Char) : Bool :=
  c.toNat = 32 || c.toNat = 9 || c.toNat = 10 || c.toNat = 11 ||
  c.toNat = 12 || c.toNat = 13 || c.toNat = 160 || c.toNat = 0x1680 ||
  (0x2000 ≤ c.toNat && c.toNat ≤ 0x200A) || c.toNat = 0x2028 ||
  c.toNat = 0x2029 || c.toNat = 0x202F || c.toNat = 0x205F ||
  c.toNat = 0x3000 || c.toNat = 0xFEFF

/-- True when the list is empty or its head is not JS whitespace. -/
def headNotWs : Str → Bool
  | [] => true
  | c :: _ => !isJsWs c

/-- `str.replace(/\s+/g, ' ')`: every maximal run of whitespace becomes a
single space.  The flag records whether the previous character was part
of a whitespace run already replaced. -/
def collapseWsAux : Bool → Str → Str
  | _, [] => []
  | prevWs, c :: cs =>
    if isJsWs c then
      if prevWs then collapseWsAux true cs
      else ' ' :: collapseWsAux true cs
    else c :: collapseWsAux false cs

def collapseWs (l : Str) : Str := collapseWsAux false l

/-- Leading half of `String.prototype.trim`. -/
def jsTrimLeft (l : Str) : Str := l.dropWhile isJsWs

/-- Trailing half of `String.prototype.trim`. -/
def jsTrimRight (l : Str) : Str := (l.reverse.dropWhile isJsWs).reverse

/-- `String.prototype.trim`. -/
def jsTrim (l : Str) : Str := jsTrimRight (jsTrimLeft l)

/-- Index of the last newline inside the maximal whitespace run at the
head of the list (the position the greedy `\s*` of `/\n\s*\n/` backtracks
to), if any. -/
def lastNewlineInWsRun : Str → Option Nat
  | [] => none
  | c :: cs =>
    if isJsWs c then
      match lastNewlineInWsRun cs with
      | some k => some (k + 1)
      | none => if c = '\n' then some 0 else none
    else none

/-- `str.replace(/\n\s*\n/g, '\n\n')`, fuel-indexed to keep the
recursion structural; `collapseBlank` supplies sufficient fuel. -/
def collapseBlankFuel : Nat → Str → Str
  | 0, l => l
  | _ + 1, [] => []
  | fuel + 1, c :: cs =>
    if c = '\n' then
      match lastNewlineInWsRun cs with
      | some k => '\n' :: '\n' :: collapseBlankFuel fuel (cs.drop (k + 1))
      | none => c :: collapseBlankFuel fuel cs
    else c :: collapseBlankFuel fuel cs

def collapseBlank (l : Str) : Str := collapseBlankFuel l.length l

/-- Character class kept by `.replace(/[^\x20-\x7E\n]/g, '')`. -/
def printable (c : Char) : Bool :=
  (32 ≤ c.toNat && c.toNat ≤ 126) || c = '\n'

/-- `InterviewReader.cleanContent`: collapse whitespace runs, collapse
blank lines, strip characters outside printable ASCII plus newline,
trim. -/
def cleanContent (l : Str) : Str :=
  jsTrim (List.filter printable (collapseBlank (collapseWs l)))

/-- The character class of `/^["'"'"`]/` in `QuoteExtractor.cleanQuote`:
double quote (34), single quote (39) and backtick (96). -/
def isQuoteChar (c : Char) : Bool :=
  c.toNat = 34 || c.toNat = 39 || c.toNat = 96

/-- Remove the first character when it satisfies `p`
(`.replace(/^[class]/, '')`). -/
def stripLeadIf (p : Char → Bool) : Str → Str
  | [] => []
  | c :: cs => if p c then cs else c :: cs

/-- Remove the last character when it satisfies `p`
(`.replace(/[class]$/, '')`). -/
def stripTrailIf (p : Char → Bool) (l : Str) : Str :=
  (stripLeadIf p l.reverse).reverse

/-- `.replace(/^- /, '')`: drop one leading dash-space. -/
def stripLeadDash : Str → Str
  | '-' :: ' ' :: cs => cs
  | l => l

/-- `QuoteExtractor.cleanQuote` (identical in both copies of the
module): trim, strip one leading quote character, strip one trailing
quote character, strip one leading dash-space, collapse whitespace,
trim. -/
def cleanQuote (l : Str) : Str :=
  jsTrim (collapseWs (stripLeadDash
    (stripTrailIf isQuoteChar (stripLeadIf isQuoteChar (jsTrim l)))))

/-- The exact "no quote" sentinel the prompt instructs providers to
return. -/
def sentinel : Str := "ERROR_NO_QUOTE".toList

structure QuoteResult where
  text : Str
  source : String
  extractedAt : Int
deriving DecidableEq

/-- The `if (!rawQuote) return null` guard of `cleanQuote` applied to a
possibly-absent provider response (`undefined`/`null`/`""` are falsy). -/
def cleanQuoteRaw : Option Str → Option Str
  | none => none
  | some s => if s = [] then none else some (cleanQuote s)

/-- `QuoteExtractor.extractQuotes`: the provider call is its
`Except`-valued result (an exception propagates); the cleaned quote is
checked against emptiness and the sentinel, yielding `none` (absent) in
those cases and a one-element array otherwise. -/
def extractQuotes (provider : String) (now : Int)
    (resp : Except String (Option Str)) :
    Except String (Option (List QuoteResult)) :=
  match resp with
  | .error e => .error e
  | .ok raw =>
    match cleanQuoteRaw raw with
    | none => .ok none
    | some t =>
      if t = [] || t = sentinel then .ok none
      else .ok (some [⟨t, provider, now⟩])

/-! ## Interview store (`src/services/interview-reader.js`) -/

/-- One raw JSON entry: both fields may be missing (`none`) or empty. -/
structure RawEntry where
  url : Option Str
  text : Option Str
deriving DecidableEq

instance : Inhabited RawEntry := ⟨⟨none, none⟩⟩

/-- JS truthiness of an optional string field: present and non-empty. -/
def truthyField : Option Str → Bool
  | none => false
  | some s => !s.isEmpty

/-- The `interview && interview.url && interview.text` filter; the outer
`Option` models a `null` array element. -/
def truthyEntry : Option RawEntry → Bool
  | none => false
  | some e => truthyField e.url && truthyField e.text

/-- `String.prototype.split(sep)` for a single-character separator. -/
def splitOnChar (sep : Char) : Str → List Str
  | [] => [[]]
  | c :: cs =>
    let r := splitOnChar sep cs
    if c = sep then [] :: r
    else
      match r with
      | [] => [[c]]
      | h :: t => (c :: h) :: t

def jsToLower (l : Str) : Str := l.map Char.toLower

/-- Substring test (`String.prototype.includes`). -/
def containsSub (pat : Str) : Str → Bool
  | [] => pat.isPrefixOf []
  | c :: cs => pat.isPrefixOf (c :: cs) || containsSub pat cs

/-- JS `\w` word character. -/
def isWordChar (c : Char) : Bool :=
  (65 ≤ c.toNat && c.toNat ≤ 90) || (97 ≤ c.toNat && c.toNat ≤ 122) ||
  (48 ≤ c.toNat && c.toNat ≤ 57) || c = '_'

/-- `.replace(/\b\w/g, l => l.toUpperCase())`: uppercase each word
character that follows a non-word character or starts the string. -/
def capWordsAux : Bool → Str → Str
  | _, [] => []
  | prevWord, c :: cs =>
    (if isWordChar c && !prevWord then c.toUpper else c) ::
      capWordsAux (isWordChar c) cs

def capitalizeWords (l : Str) : Str := capWordsAux false l

/-- Replace every dash with a space (the global dash-to-space
replace of the title fallback). -/
def dashesToSpaces (l : Str) : Str :=
  l.map fun c => if c = '-' then ' ' else c

/-- `InterviewReader.extractTitle`.  The URL library is modelled by
`parsePathname`, returning `new URL(url).pathname` or `none` when the
constructor throws. -/
def extractTitle (parsePathname : Str → Option Str) (text url : Str) : Str :=
  let lines := ((splitOnChar '\n' text).map jsTrim).filter
    fun l => 0 < l.length
  match (lines.take 5).find? (fun line =>
      !(decide (line.length < 10) ||
        containsSub "home".toList (jsToLower line) ||
        containsSub "about".toList (jsToLower line)) &&
      (decide (10 ≤ line.length) && decide (line.length ≤ 100) &&
        !containsSub ".com".toList line)) with
  | some line => line
  | none =>
    match parsePathname url with
    | some pathname =>
      let segs := (splitOnChar '/' pathname).filter fun p => 0 < p.length
      let base := (segs.getLast?).getD "interview".toList
      capitalizeWords (dashesToSpaces base)
    | none => "Interview".toList

/-- `String.prototype.replace` with a plain-string pattern: only the
first (leftmost) occurrence is replaced, here by the empty string. -/
def replaceFirst (pat : Str) : Str → Str
  | [] => []
  | c :: cs =>
    if pat.isPrefixOf (c :: cs) then (c :: cs).drop pat.length
    else c :: replaceFirst pat cs

/-- `InterviewReader.extractSource`: `new URL(url).hostname` is modelled
by `parseHost` (`none` when the constructor throws), then
`.replace('www.', '')`. -/
def extractSource (parseHost : Str → Option Str) (url : Str) : Str :=
  match parseHost url with
  | some host => replaceFirst "www.".toList host
  | none => "Unknown Source".toList

structure InterviewRecord where
  id : Nat
  url : Str
  title : Str
  content : Str
  source : Str
  loadedAt : Int
deriving DecidableEq

instance : Inhabited InterviewRecord := ⟨⟨0, [], [], [], [], 0⟩⟩

/-- The record built for the entry at position `idx` of the filtered
array (`id` is the numeric part of the string `interview-$\x7bindex+1\x7d`). -/
def mkRecord (parseHost parsePathname : Str → Option Str) (now : Int)
    (idx : Nat) (e : RawEntry) : InterviewRecord :=
  { id := idx + 1
    url := e.url.getD []
    title := extractTitle parsePathname (e.text.getD []) (e.url.getD [])
    content := cleanContent (e.text.getD [])
    source := extractSource parseHost (e.url.getD [])
    loadedAt := now }

/-- `Array.prototype.map` with its index argument. -/
def mapIdx (f : Nat → α → β) : Nat → List α → List β
  | _, [] => []
  | i, a :: as => f i a :: mapIdx f (i + 1) as

/-- `InterviewReader.loadInterviews` on already-parsed JSON data: filter
truthy entries, map to records, drop records with cleaned content of at
most 100 characters. -/
def loadInterviews (parseHost parsePathname : Str → Option Str)
    (now : Int) (data : List (Option RawEntry)) : List InterviewRecord :=
  (mapIdx (fun i o => mkRecord parseHost parsePathname now i (o.getD default))
      0 (data.filter truthyEntry)).filter
    fun r => 100 < r.content.length

structure ReaderState where
  interviews : Option (List InterviewRecord)
  lastLoadTime : Option Int
deriving DecidableEq

/-- `InterviewReader.getRandomInterview`.  `now` is `Date.now()`,
`fileData` the parsed JSON the (re)load would read, and `r` the value of
`Math.random()` (a number in `[0, 1)`); `null` arithmetic makes the
staleness test compare against `0` when `lastLoadTime` is `null`. -/
def getRandomInterview (parseHost parsePathname : Str → Option Str)
    (now : Int) (fileData : List (Option RawEntry)) (r : ℚ)
    (st : ReaderState) : Except String (InterviewRecord × ReaderState) :=
  let stale := st.interviews.isNone ||
    decide (now - (st.lastLoadTime.getD 0) > 300000)
  let st1 := if stale then
      { interviews := some (loadInterviews parseHost parsePathname now fileData)
        lastLoadTime := some now }
    else st
  match st1.interviews with
  | none => .error "No interviews available"
  | some l =>
    if l.length = 0 then .error "No interviews available"
    else .ok (l.getD (Int.toNat ⌊r * (l.length : ℚ)⌋) default, st1)

/-- IEEE-double arithmetic as far as this program exercises it: a finite
rational, the two infinities, or NaN. -/
inductive JsNum where
  | fin (q : ℚ)
  | posInf
  | negInf
  | nan
deriving DecidableEq

/-- JS division: `0/0` is NaN, `x/0` is a signed infinity. -/
def jsDiv (a b : ℚ) : JsNum :=
  if b = 0 then
    if a = 0 then .nan else if 0 < a then .posInf else .negInf
  else .fin (a / b)

/-- `Math.round`: half-up floor on finite values, identity on NaN and
the infinities. -/
def jsRound : JsNum → JsNum
  | .fin q => .fin ((⌊q + 1 / 2⌋ : ℤ) : ℚ)
  | x => x

/-- `[...new Set(xs)]`: deduplicate keeping first occurrences. -/
def nubFirstAux (seen : List Str) : List Str → List Str
  | [] => []
  | a :: as =>
    if seen.contains a then nubFirstAux seen as
    else a :: nubFirstAux (a :: seen) as

/-- Result shape of `getStats`: the never-loaded branch returns an
object without `sources`/`lastLoaded` keys, modelled as `none`. -/
structure InterviewStats where
  total : Nat
  averageLength : JsNum
  sources : Option (List Str)
  lastLoaded : Option Int
deriving DecidableEq

/-- `InterviewReader.getStats`. -/
def getStats (st : ReaderState) : InterviewStats :=
  match st.interviews with
  | none =>
    { total := 0, averageLength := .fin 0, sources := none, lastLoaded := none }
  | some l =>
    let totalLength : ℚ := ((l.map fun i => i.content.length).sum : ℕ)
    { total := l.length
      averageLength := jsRound (jsDiv totalLength (l.length : ℚ))
      sources := some (nubFirstAux [] (l.map fun i => i.source))
      lastLoaded := st.lastLoadTime }

/-! ## Email dispatcher (`src/email/email-sender.js`) -/

/-- Network-visible actions of the SMTP layer. -/
inductive NetEv where
  | createTransport
  | verifyCall
  | sendMail
deriving DecidableEq

structure EmailState where
  isConfigured : Bool
  transporterReady : Bool
deriving DecidableEq

structure SendReceipt where
  recipients : List Str
deriving DecidableEq

/-- `EmailSender.init`: throws before any transport work when the
configuration is incomplete; otherwise creates the transport and runs
the liveness `verify()` (whose success is the external `verifyOk`). -/
def emailInit (st : EmailState) (verifyOk : Bool) :
    Except String EmailState × List NetEv :=
  if !st.isConfigured then (.error "Email configuration is incomplete", [])
  else if verifyOk then
    (.ok { st with transporterReady := true }, [.createTransport, .verifyCall])
  else (.error "Connection verification failed", [.createTransport, .verifyCall])

/-- `EmailSender.sendQuoteEmail`: lazily `init()` when no transporter
exists yet, then check the recipient list, then submit the message
(whose transport-level success is the external `sendOk`). -/
def sendQuoteEmail (st : EmailState) (recipients : List Str)
    (verifyOk sendOk : Bool) :
    Except String SendReceipt × EmailState × List NetEv :=
  let ini : Except String EmailState × List NetEv :=
    if st.transporterReady then (.ok st, []) else emailInit st verifyOk
  match ini with
  | (.error e, evs) => (.error e, st, evs)
  | (.ok st1, evs) =>
    if recipients.isEmpty then (.error "No recipients specified", st1, evs)
    else if sendOk then (.ok ⟨recipients⟩, st1, evs ++ [.sendMail])
    else (.error "Failed to send email", st1, evs ++ [.sendMail])

/-! ## Orchestrator (`src/index.js`) -/

structure RunResult where
  title : Str
  url : Str
  quotes : Nat
  recipientCount : Nat
deriving DecidableEq

inductive RunOutcome where
  | skipped
  | completed (r : RunResult)
  | failed (e : String)
deriving DecidableEq

structure BotState where
  isRunning : Bool
  email : EmailState
deriving DecidableEq

/-- External collaborators of one `processQuote` run: the interview
store result, the raw provider response, and the SMTP outcomes. -/
structure RunEnv where
  interviewRes : Except String InterviewRecord
  providerResp : Except String (Option Str)
  provider : String
  now : Int
  recipients : List Str
  verifyOk : Bool
  sendOk : Bool

/-- `RickOwensQuoteBot.processQuote`: re-entrancy guard, pipeline of
interview fetch, quote extraction and email send, with the guard
cleared in a `finally` on every exit path. -/
def processQuote (env : RunEnv) (s : BotState) :
    RunOutcome × BotState × List NetEv :=
  if s.isRunning then (.skipped, s, [])
  else
    let s1 : BotState := { s with isRunning := true }
    match env.interviewRes with
    | .error e => (.failed e, { s1 with isRunning := false }, [])
    | .ok iv =>
      if iv.content.isEmpty then
        (.failed "No interview content available",
          { s1 with isRunning := false }, [])
      else
        match extractQuotes env.provider env.now env.providerResp with
        | .error e => (.failed e, { s1 with isRunning := false }, [])
        | .ok none =>
          (.failed "No meaningful quotes extracted",
            { s1 with isRunning := false }, [])
        | .ok (some quotes) =>
          if quotes.isEmpty then
            (.failed "No meaningful quotes extracted",
              { s1 with isRunning := false }, [])
          else
            match sendQuoteEmail s1.email env.recipients env.verifyOk
                env.sendOk with
            | (.error e, est, evs) =>
              (.failed e, { isRunning := false, email := est }, evs)
            | (.ok _, est, evs) =>
              (.completed
                  ⟨iv.title, iv.url, quotes.length, env.recipients.length⟩,
                { isRunning := false, email := est }, evs)

/-! ## Derived predicates used by the statements below -/

/-- An entry survives loading iff it is truthy and its cleaned text is
longer than 100 characters. -/
def keepEntry (o : Option RawEntry) : Bool :=
  truthyEntry o &&
    decide (100 < (cleanContent ((o.getD default).text.getD [])).length)

/-- Whether an `Except` value is a success. -/
def exceptIsOk : Except ε α → Bool
  | .ok _ => true
  | .error _ => false

/-- True when the list is empty or its head is not a quote character. -/
def headNotQuote : Str → Bool
  | [] => true
  | c :: _ => !isQuoteChar c

/-- No two adjacent whitespace characters. -/
def nAdj (a b : Char) : Prop := ¬(isJsWs a = true ∧ isJsWs b = true)

/-- A concrete environment for closed instantiations of the
orchestrator theorems. -/
def envW : RunEnv :=
  { interviewRes := .ok default
    providerResp := .ok none
    provider := "openai"
    now := 0
    recipients := []
    verifyOk := true
    sendOk := true }

/-- A concrete one-entry data file whose text is 150 characters long. -/
def wData : List (Option RawEntry) :=
  [some ⟨some "https://x.test/i1".toList, some (List.replicate 150 'a')⟩]

/-! ## Theorems -/

theorem replaceFirst_of_isPrefix (pat l : Str)
    (h : pat.isPrefixOf l = true) :
    replaceFirst pat l = l.drop pat.length := by
  cases l with
  | nil => simp [replaceFirst]
  | cons c cs => simp [replaceFirst, h]

theorem replaceFirst_of_not_contains (pat l : Str)
    (h : containsSub pat l = false) :
    replaceFirst pat l = l := by
  induction l with
  | nil => rfl
  | cons c cs ih =>
    rw [containsSub] at h
    simp only [Bool.or_eq_false_iff] at h
    rw [replaceFirst, if_neg (by simp [h.1]), ih h.2]

/-- C1: a provider response whose cleaned text is empty or exactly the
"no quote" sentinel makes `extractQuotes` return an absent result (`.ok
none`, not a thrown error), and no returned `QuoteResult` ever carries
the sentinel as its text. -/
theorem extractQuotes_sentinel_absent (provider : String) (now : Int)
    (raw : Option Str) :
    (cleanQuoteRaw raw = none ∨ cleanQuoteRaw raw = some [] ∨
        cleanQuoteRaw raw = some sentinel →
      extractQuotes provider now (.ok raw) = .ok none) ∧
    (∀ qs : List QuoteResult, ∀ q : QuoteResult,
      extractQuotes provider now (.ok raw) = .ok (some qs) → q ∈ qs →
        q.text ≠ sentinel) := by
  constructor
  · rintro (h | h | h) <;> simp [extractQuotes, h]
  · intro qs q hq hmem
    cases hcr : cleanQuoteRaw raw with
    | none => simp [extractQuotes, hcr] at hq
    | some t =>
      by_cases ht : t = [] ∨ t = sentinel
      · rcases ht with ht | ht <;> simp [extractQuotes, hcr, ht] at hq
      · have h0 : ¬t = [] := fun hh => ht (Or.inl hh)
        have h1 : ¬t = sentinel := fun hh => ht (Or.inr hh)
        simp [extractQuotes, hcr, h0, h1] at hq
        rw [← hq] at hmem
        simp at hmem
        rw [hmem]
        exact h1

/-- C1 witness: the literal sentinel response yields an absent result. -/
theorem extractQuotes_sentinel_absent_w :
    extractQuotes "openai" 0 (.ok (some "ERROR_NO_QUOTE".toList)) =
      .ok none :=
  (extractQuotes_sentinel_absent "openai" 0
    (some "ERROR_NO_QUOTE".toList)).1 (by decide)

/-- C2 counterexample: with a configured sender whose transporter is not
yet initialized, sending to an empty recipient list does fail with the
no-recipients error, but only after the transport has been created and
its liveness verified — two network actions precede the failure,
contradicting the claim that it fails before any network call. -/
theorem sendQuoteEmail_network_before_norecipients :
    (sendQuoteEmail ⟨true, false⟩ [] true true).1 =
        .error "No recipients specified" ∧
    (sendQuoteEmail ⟨true, false⟩ [] true true).2.2 =
        [NetEv.createTransport, NetEv.verifyCall] ∧
    (sendQuoteEmail ⟨true, false⟩ [] true true).2.2 ≠ [] := by
  decide

/-- C2 (amended): with an empty recipient list the send operation never
submits a message and never succeeds; when the transporter is already
initialized it fails with the no-recipients error before any network
action, but when the transporter is absent, transport creation and
liveness verification happen first (with init-time errors taking
precedence). -/
theorem sendQuoteEmail_empty_recipients (st : EmailState)
    (recipients : List Str) (verifyOk sendOk : Bool)
    (h : recipients = []) :
    NetEv.sendMail ∉ (sendQuoteEmail st recipients verifyOk sendOk).2.2 ∧
    exceptIsOk (sendQuoteEmail st recipients verifyOk sendOk).1 = false ∧
    (st.transporterReady = true →
      sendQuoteEmail st recipients verifyOk sendOk =
        (.error "No recipients specified", st, [])) ∧
    (st.transporterReady = false → st.isConfigured = true →
        verifyOk = true →
      sendQuoteEmail st recipients verifyOk sendOk =
        (.error "No recipients specified",
          EmailState.mk st.isConfigured true,
          [NetEv.createTransport, NetEv.verifyCall])) := by
  subst h
  obtain ⟨cfg, ready⟩ := st
  cases cfg <;> cases ready <;> cases verifyOk <;> cases sendOk <;>
    exact ⟨by decide, by decide, by decide, by decide⟩

/-- C2 witness: with a ready transporter the empty recipient list fails
immediately with no network action. -/
theorem sendQuoteEmail_empty_recipients_w :
    sendQuoteEmail ⟨true, true⟩ [] true true =
      (.error "No recipients specified", ⟨true, true⟩, []) :=
  (sendQuoteEmail_empty_recipients ⟨true, true⟩ [] true true rfl).2.2.1 rfl

/-- C9 counterexample: for a hostname with no leading `www.` but a
`www.` occurrence in the middle, the code removes that occurrence, while
the claim says only a leading `www.` is removed (so the hostname should
come back unchanged). -/
theorem extractSource_midstring_www :
    ("www.".toList).isPrefixOf "foo.www.example.com".toList = false ∧
    extractSource (fun _ => some "foo.www.example.com".toList)
        "https://foo.www.example.com/a".toList =
      "foo.example.com".toList ∧
    extractSource (fun _ => some "foo.www.example.com".toList)
        "https://foo.www.example.com/a".toList ≠
      "foo.www.example.com".toList := by
  decide

/-- C9 (amended): the source host is the hostname with its first
occurrence of the substring `www.` removed — when the hostname starts
with `www.` that prefix is dropped, when `www.` does not occur at all
the hostname is unchanged (but a non-leading first occurrence is also
removed, as the counterexample shows) — and the fixed default is
returned when the URL cannot be parsed. -/
theorem extractSource_www (parseHost : Str → Option Str) (url : Str) :
    (parseHost url = none →
      extractSource parseHost url = "Unknown Source".toList) ∧
    (∀ h, parseHost url = some h →
      (("www.".toList).isPrefixOf h = true →
        extractSource parseHost url = h.drop 4) ∧
      (containsSub "www.".toList h = false →
        extractSource parseHost url = h)) := by
  constructor
  · intro hp; simp [extractSource, hp]
  · intro h hp
    constructor
    · intro hpre
      simp only [extractSource, hp]
      have h4 : ("www.".toList).length = 4 := by decide
      rw [replaceFirst_of_isPrefix _ _ hpre, h4]
    · intro hnc
      simp only [extractSource, hp]
      exact replaceFirst_of_not_contains _ _ hnc

/-- C9 witness: a leading `www.` is removed. -/
theorem extractSource_www_w :
    extractSource (fun _ => some "www.example.com".toList)
        "https://www.example.com/".toList =
      ("www.example.com".toList).drop 4 :=
  ((extractSource_www (fun _ => some "www.example.com".toList)
      "https://www.example.com/".toList).2 _ rfl).1 (by decide)

/-- C10: when the collection is loaded but empty, `getStats` divides by
zero and reports a NaN (non-finite) average length; the zeroed summary
without `sources`/`lastLoaded` keys arises exactly when the collection
was never loaded. -/
theorem getStats_loaded_empty :
    (∀ t : Option Int, getStats ⟨some [], t⟩ =
      InterviewStats.mk 0 JsNum.nan (some []) t) ∧
    (∀ q : ℚ, ∀ t : Option Int,
      (getStats ⟨some [], t⟩).averageLength ≠ JsNum.fin q) ∧
    (∀ st : ReaderState,
      getStats st = InterviewStats.mk 0 (JsNum.fin 0) none none ↔
        st.interviews = none) := by
  refine ⟨?_, ?_, ?_⟩
  · intro t; simp [getStats, jsDiv, jsRound, nubFirstAux]
  · intro q t hq; simp [getStats, jsDiv, jsRound, nubFirstAux] at hq
  · intro st
    obtain ⟨iv, t⟩ := st
    cases iv with
    | none => simp [getStats]
    | some l => simp [getStats]

/-- C10 witness: the loaded-but-empty stats object at a concrete load
time. -/
theorem getStats_loaded_empty_w :
    getStats ⟨some [], some 7⟩ =
      InterviewStats.mk 0 JsNum.nan (some []) (some 7) :=
  getStats_loaded_empty.1 (some 7)

theorem countP_mapIdx (q : β → Bool) (p : α → Bool) (f : Nat → α → β)
    (hq : ∀ i a, q (f i a) = p a) :
    ∀ (i : Nat) (l : List α),
      List.countP q (mapIdx f i l) = List.countP p l := by
  intro i l
  induction l generalizing i with
  | nil => rfl
  | cons a as ih =>
    rw [mapIdx, List.countP_cons, List.countP_cons, hq, ih]

theorem countP_add_countP_not (p : α → Bool) (l : List α) :
    List.countP p l + List.countP (fun a => !p a) l = l.length := by
  induction l with
  | nil => rfl
  | cons a as ih =>
    rw [List.countP_cons, List.countP_cons, List.length_cons, ← ih]
    cases h : p a <;> simp [h] <;> omega

/-- C5: loading filters out entries missing a truthy url/text and
records whose cleaned body is at most 100 characters long: every loaded
record has content strictly longer than 100 characters, and the loaded
count is the total count minus the excluded count. -/
theorem loadInterviews_filters (ph pp : Str → Option Str) (now : Int)
    (data : List (Option RawEntry)) :
    (∀ r ∈ loadInterviews ph pp now data, 100 < r.content.length) ∧
    (loadInterviews ph pp now data).length =
      data.length - List.countP (fun o => !keepEntry o) data := by
  constructor
  · intro r hr
    unfold loadInterviews at hr
    exact of_decide_eq_true (List.mem_filter.mp hr).2
  · have hlen : (loadInterviews ph pp now data).length =
        List.countP keepEntry data := by
      unfold loadInterviews
      rw [← List.countP_eq_length_filter]
      have hmap := countP_mapIdx
        (fun r : InterviewRecord => decide (100 < r.content.length))
        (fun o : Option RawEntry => decide
          (100 < (cleanContent ((o.getD default).text.getD [])).length))
        (fun i o => mkRecord ph pp now i (o.getD default))
        (fun i a => rfl) 0 (List.filter truthyEntry data)
      rw [hmap, List.countP_filter]
      apply List.countP_congr
      intro o _
      unfold keepEntry
      cases truthyEntry o <;> simp
    rw [hlen]
    have h2 := countP_add_countP_not keepEntry data
    omega

set_option maxRecDepth 4000 in
/-- C5 witness: the single 150-character entry survives loading with
content longer than 100 characters. -/
theorem loadInterviews_filters_w :
    100 < ((loadInterviews (fun _ => none) (fun _ => none) 0
      wData).getD 0 default).content.length :=
  (loadInterviews_filters (fun _ => none) (fun _ => none) 0 wData).1 _
    (by decide)

theorem sendQuoteEmail_ok_count (st : EmailState) (rcpts : List Str)
    (v so : Bool) (rec : SendReceipt)
    (h : (sendQuoteEmail st rcpts v so).1 = .ok rec) :
    ((sendQuoteEmail st rcpts v so).2.2).count NetEv.sendMail = 1 := by
  obtain ⟨cfg, ready⟩ := st
  cases cfg <;> cases ready <;> cases v <;> cases so <;> cases rcpts <;>
    simp_all [sendQuoteEmail, emailInit]

/-- C7: while the re-entrancy guard is set, `processQuote` returns
immediately with no state change and no network action (in particular
no send); a run that completes successfully performs exactly one send,
so two concurrent invocations — the second seeing the guard the first
set — produce exactly one send in total. -/
theorem processQuote_single_flight :
    (∀ env s, s.isRunning = true → processQuote env s = (.skipped, s, [])) ∧
    (∀ env s r, s.isRunning = false →
      (processQuote env s).1 = RunOutcome.completed r →
        ((processQuote env s).2.2).count NetEv.sendMail = 1) := by
  constructor
  · intro env s h
    unfold processQuote
    rw [if_pos h]
  · intro env s r hs hr
    rcases hPQ : processQuote env s with ⟨out, s2, evs⟩
    rw [hPQ] at hr
    replace hr : out = RunOutcome.completed r := hr
    show List.count NetEv.sendMail evs = 1
    unfold processQuote at hPQ
    rw [if_neg (by simp [hs])] at hPQ
    dsimp only at hPQ
    repeat' split at hPQ
    any_goals (injection hPQ with h1 h2; subst h1; simp at hr)
    rename_i a est evs2 heq
    injection h2 with h3 h4
    subst h4
    have hcount := sendQuoteEmail_ok_count s.email
      env.recipients env.verifyOk env.sendOk a (by rw [heq])
    rw [heq] at hcount
    exact hcount

/-- C7 witness: with the guard set, a concrete invocation is a no-op. -/
theorem processQuote_single_flight_w :
    processQuote envW ⟨true, ⟨true, true⟩⟩ =
      (.skipped, ⟨true, ⟨true, true⟩⟩, []) :=
  processQuote_single_flight.1 envW ⟨true, ⟨true, true⟩⟩ rfl

/-- C8: starting from a non-running state, every exit path of
`processQuote` — a completed run, or a failure at the interview,
extraction or send step — leaves the re-entrancy guard cleared, so a
failed run never blocks a later one. -/
theorem processQuote_releases_guard (env : RunEnv) (s : BotState)
    (h : s.isRunning = false) :
    ((processQuote env s).2.1).isRunning = false := by
  rcases hPQ : processQuote env s with ⟨out, s2, evs⟩
  show s2.isRunning = false
  unfold processQuote at hPQ
  rw [if_neg (by simp [h])] at hPQ
  dsimp only at hPQ
  repeat' split at hPQ
  all_goals
    injection hPQ with h1 h2
    injection h2 with h3 h4
    subst h3
    rfl

/-- C8 witness: a concrete failing run (provider returns no quote)
leaves the guard cleared. -/
theorem processQuote_releases_guard_w :
    ((processQuote envW ⟨false, ⟨true, true⟩⟩).2.1).isRunning = false :=
  processQuote_releases_guard envW ⟨false, ⟨true, true⟩⟩ rfl

theorem floor_rand_lt (r : ℚ) (n : ℕ) (h0 : 0 ≤ r) (h1 : r < 1)
    (hn : 0 < n) : Int.toNat ⌊r * (n : ℚ)⌋ < n := by
  have hnq : (0 : ℚ) < (n : ℚ) := by exact_mod_cast hn
  have hlt : r * (n : ℚ) < (n : ℚ) := by
    calc r * (n : ℚ) < 1 * (n : ℚ) := by
          exact mul_lt_mul_of_pos_right h1 hnq
      _ = (n : ℚ) := one_mul _
  have hfl : ⌊r * (n : ℚ)⌋ < (n : ℤ) := by
    rw [Int.floor_lt]
    exact_mod_cast hlt
  have hf0 : 0 ≤ ⌊r * (n : ℚ)⌋ :=
    Int.floor_nonneg.mpr (mul_nonneg h0 (le_of_lt hnq))
  omega

theorem floor_rand_eq_iff (r : ℚ) (n : ℕ) (h0 : 0 ≤ r) (hn : 0 < n)
    (i : ℕ) :
    Int.toNat ⌊r * (n : ℚ)⌋ = i ↔
      (i : ℚ) / (n : ℚ) ≤ r ∧ r < ((i : ℚ) + 1) / (n : ℚ) := by
  have hnq : (0 : ℚ) < (n : ℚ) := by exact_mod_cast hn
  have hf0 : 0 ≤ ⌊r * (n : ℚ)⌋ :=
    Int.floor_nonneg.mpr (mul_nonneg h0 (le_of_lt hnq))
  have h1 : Int.toNat ⌊r * (n : ℚ)⌋ = i ↔ ⌊r * (n : ℚ)⌋ = (i : ℤ) := by
    omega
  rw [h1, Int.floor_eq_iff, div_le_iff₀ hnq, lt_div_iff₀ hnq]
  push_cast
  tauto

/-- C6: getRandomInterview reloads first when the collection is absent
or older than five minutes, fails with the empty-collection error when
the resulting collection is empty, and otherwise returns the record at
index floor(r times n) of the resulting collection together with the
updated state; that index equals i exactly when r lies in the interval
from i/n to (i+1)/n, so a uniform r selects each record with equal
probability. -/
theorem getRandomInterview_spec (ph pp : Str → Option Str) (now : Int)
    (fileData : List (Option RawEntry)) (r : ℚ) (st : ReaderState)
    (h0 : 0 ≤ r) (h1 : r < 1) :
    ∀ stale coll stAfter idx,
      stale = (st.interviews.isNone ||
        decide (now - (st.lastLoadTime.getD 0) > 300000)) →
      coll = (if stale then loadInterviews ph pp now fileData
        else st.interviews.getD []) →
      stAfter = (if stale then
          ReaderState.mk (some (loadInterviews ph pp now fileData))
            (some now)
        else st) →
      idx = Int.toNat ⌊r * (coll.length : ℚ)⌋ →
      ((coll = [] → getRandomInterview ph pp now fileData r st =
          .error "No interviews available") ∧
       (coll ≠ [] → idx < coll.length ∧
          getRandomInterview ph pp now fileData r st =
            .ok (coll.getD idx default, stAfter)) ∧
       (coll ≠ [] → ∀ i : ℕ, (idx = i ↔
          (i : ℚ) / (coll.length : ℚ) ≤ r ∧
            r < ((i : ℚ) + 1) / (coll.length : ℚ)))) := by
  intro stale coll stAfter idx hstale hcoll hstA hidx
  subst hstale
  subst hcoll
  subst hstA
  subst hidx
  unfold getRandomInterview
  cases hb : (st.interviews.isNone ||
      decide (now - (st.lastLoadTime.getD 0) > 300000)) with
  | true =>
    simp only [hb, if_true]
    set L := loadInterviews ph pp now fileData with hL
    refine ⟨?_, ?_, ?_⟩
    · intro hnil
      have : L.length = 0 := by rw [hnil]; rfl
      simp [this]
    · intro hne
      have hpos : 0 < L.length := List.length_pos.mpr hne
      have hlen : ¬(L.length = 0) := by omega
      refine ⟨floor_rand_lt r L.length h0 h1 hpos, ?_⟩
      simp [hlen]
    · intro hne i
      have hpos : 0 < L.length := List.length_pos.mpr hne
      exact floor_rand_eq_iff r L.length h0 hpos i
  | false =>
    simp only [hb, Bool.false_eq_true, if_false]
    cases hiv : st.interviews with
    | none => rw [hiv] at hb; simp at hb
    | some l =>
      simp only [Option.getD_some]
      refine ⟨?_, ?_, ?_⟩
      · intro hnil
        have hz : l.length = 0 := by rw [hnil]; rfl
        simp [hz]
      · intro hne
        have hpos : 0 < l.length := List.length_pos.mpr hne
        have hlen : ¬(l.length = 0) := by omega
        refine ⟨floor_rand_lt r l.length h0 h1 hpos, ?_⟩
        simp [hlen]
      · intro hne i
        have hpos : 0 < l.length := List.length_pos.mpr hne
        exact floor_rand_eq_iff r l.length h0 hpos i

/-- C6 witness: a fresh one-record collection returns its record. -/
theorem getRandomInterview_spec_w :
    getRandomInterview (fun _ => none) (fun _ => none) 0 [] 0
        ⟨some [default], some 0⟩ =
      .ok (default, ⟨some [default], some 0⟩) := by
  have h := (getRandomInterview_spec (fun _ => none) (fun _ => none) 0 []
    0 ⟨some [default], some 0⟩ (by norm_num) (by norm_num))
    _ _ _ _ rfl rfl rfl rfl
  have h2 := (h.2.1 (by decide)).2
  rw [h2]
  norm_num

theorem dropWhile_isSuffix (p : α → Bool) (l : List α) :
    l.dropWhile p <:+ l := by
  induction l with
  | nil => exact List.suffix_refl _
  | cons c cs ih =>
    rw [List.dropWhile_cons]
    by_cases hc : p c = true
    · rw [if_pos hc]
      exact ih.trans (List.suffix_cons c cs)
    · rw [if_neg hc]

theorem jsTrimRight_isPrefix (l : Str) : jsTrimRight l <+: l := by
  unfold jsTrimRight
  have h := dropWhile_isSuffix isJsWs l.reverse
  have h2 : (l.reverse.dropWhile isJsWs).reverse.reverse <:+ l.reverse := by
    rw [List.reverse_reverse]; exact h
  rw [← List.reverse_reverse l]
  exact List.reverse_prefix.mpr (by rw [List.reverse_reverse]; exact h)

theorem headNotWs_dropWhile (l : Str) :
    headNotWs (l.dropWhile isJsWs) = true := by
  induction l with
  | nil => rfl
  | cons c cs ih =>
    rw [List.dropWhile_cons]
    by_cases hc : isJsWs c = true
    · rw [if_pos hc]; exact ih
    · rw [if_neg hc]
      unfold headNotWs
      simp [hc]

theorem dropWhile_id_of_headNotWs (l : Str) (h : headNotWs l = true) :
    l.dropWhile isJsWs = l := by
  cases l with
  | nil => rfl
  | cons c cs =>
    unfold headNotWs at h
    rw [List.dropWhile_cons, if_neg (by simp_all)]

theorem headNotWs_of_isPrefix (l m : Str) (hp : l <+: m)
    (h : headNotWs m = true) : headNotWs l = true := by
  cases l with
  | nil => rfl
  | cons c cs =>
    obtain ⟨t, ht⟩ := hp
    rw [← ht] at h
    exact h

theorem headNotWs_jsTrim (l : Str) : headNotWs (jsTrim l) = true := by
  unfold jsTrim
  exact headNotWs_of_isPrefix _ _ (jsTrimRight_isPrefix _)
    (headNotWs_dropWhile l)

theorem headNotWs_jsTrim_reverse (l : Str) :
    headNotWs (jsTrim l).reverse = true := by
  unfold jsTrim jsTrimRight
  rw [List.reverse_reverse]
  exact headNotWs_dropWhile _

theorem jsTrim_id (l : Str) (h1 : headNotWs l = true)
    (h2 : headNotWs l.reverse = true) : jsTrim l = l := by
  unfold jsTrim jsTrimLeft jsTrimRight
  rw [dropWhile_id_of_headNotWs l h1, dropWhile_id_of_headNotWs l.reverse h2,
    List.reverse_reverse]

theorem collapseWsAux_spec (l : Str) : ∀ b : Bool,
    (∀ c ∈ collapseWsAux b l, isJsWs c = true → c = ' ') ∧
    List.Chain' nAdj (collapseWsAux b l) ∧
    (b = true → headNotWs (collapseWsAux b l) = true) := by
  induction l with
  | nil =>
    intro b
    refine ⟨by simp [collapseWsAux], by simp [collapseWsAux], ?_⟩
    intro
    rfl
  | cons c cs ih =>
    intro b
    by_cases hc : isJsWs c = true
    · cases b with
      | true =>
        have h : collapseWsAux true (c :: cs) = collapseWsAux true cs := by
          simp [collapseWsAux, hc]
        rw [h]
        exact ih true
      | false =>
        have h : collapseWsAux false (c :: cs) =
            ' ' :: collapseWsAux true cs := by
          simp [collapseWsAux, hc]
        rw [h]
        have ih1 := ih true
        refine ⟨?_, ?_, ?_⟩
        · intro x hx hwx
          rcases List.mem_cons.mp hx with hx | hx
          · exact hx
          · exact ih1.1 x hx hwx
        · rw [List.chain'_cons']
          refine ⟨?_, ih1.2.1⟩
          intro y hy
          have hh := ih1.2.2 rfl
          cases hcw : collapseWsAux true cs with
          | nil => rw [hcw] at hy; simp at hy
          | cons d ds =>
            rw [hcw] at hy
            simp at hy
            subst hy
            rw [hcw] at hh
            unfold headNotWs at hh
            intro hand
            simp [hand.2] at hh
        · intro hfalse
          exact absurd hfalse (by simp)
    · have h : collapseWsAux b (c :: cs) =
          c :: collapseWsAux false cs := by
        cases b <;> simp [collapseWsAux, hc]
      rw [h]
      have ih0 := ih false
      refine ⟨?_, ?_, ?_⟩
      · intro x hx hwx
        rcases List.mem_cons.mp hx with hx | hx
        · rw [hx] at hwx; exact absurd hwx hc
        · exact ih0.1 x hx hwx
      · rw [List.chain'_cons']
        refine ⟨?_, ih0.2.1⟩
        intro y hy hand
        exact hc hand.1
      · intro
        unfold headNotWs
        simp [hc]

theorem collapseWsAux_id (l : Str)
    (hall : ∀ c ∈ l, isJsWs c = true → c = ' ')
    (hch : List.Chain' nAdj l) :
    (headNotWs l = true → ∀ b, collapseWsAux b l = l) ∧
    collapseWsAux false l = l := by
  induction l with
  | nil => exact ⟨fun _ b => rfl, rfl⟩
  | cons c cs ih =>
    have hall2 : ∀ x ∈ cs, isJsWs x = true → x = ' ' :=
      fun x hx => hall x (List.mem_cons_of_mem c hx)
    have hch2 : List.Chain' nAdj cs := hch.tail
    have ihcs := ih hall2 hch2
    by_cases hc : isJsWs c = true
    · have hsp : c = ' ' := hall c (List.mem_cons_self c cs) hc
      constructor
      · intro hh
        unfold headNotWs at hh
        simp [hc] at hh
      · have haux : collapseWsAux false (c :: cs) =
            ' ' :: collapseWsAux true cs := by
          simp [collapseWsAux, hc]
        rw [haux, hsp]
        cases cs with
        | nil => rfl
        | cons d ds =>
          have hnd : isJsWs d = false := by
            have := (List.chain'_cons.mp hch).1
            unfold nAdj at this
            cases hdd : isJsWs d
            · rfl
            · exact absurd ⟨hc, hdd⟩ this
          have hhead : headNotWs (d :: ds) = true := by
            unfold headNotWs; simp [hnd]
          rw [ihcs.1 hhead true]
    · constructor
      · intro _ b
        have haux : collapseWsAux b (c :: cs) =
            c :: collapseWsAux false cs := by
          simp [collapseWsAux, hc]
        rw [haux, ihcs.2]
      · have haux : collapseWsAux false (c :: cs) =
            c :: collapseWsAux false cs := by
          simp [collapseWsAux, hc]
        rw [haux, ihcs.2]

theorem no_nl_collapseWs (l : Str) (b : Bool) :
    ('\n' : Char) ∉ collapseWsAux b l := by
  intro hmem
  have h := (collapseWsAux_spec l b).1 '\n' hmem (by decide)
  exact absurd h (by decide)

theorem collapseBlankFuel_id_of_no_nl :
    ∀ (f : Nat) (l : Str), ('\n' : Char) ∉ l →
      collapseBlankFuel f l = l := by
  intro f
  induction f with
  | zero => intro l _; rfl
  | succ f ih =>
    intro l h
    cases l with
    | nil => rfl
    | cons c cs =>
      have hc : ¬(c = '\n') := by
        intro hh
        exact h (by rw [hh]; exact List.mem_cons_self _ _)
      have hcs : ('\n' : Char) ∉ cs :=
        fun hm => h (List.mem_cons_of_mem c hm)
      simp only [collapseBlankFuel, if_neg hc]
      rw [ih cs hcs]

theorem mem_of_mem_jsTrim (l : Str) (c : Char) (h : c ∈ jsTrim l) :
    c ∈ l := by
  unfold jsTrim at h
  have h1 : c ∈ jsTrimLeft l := List.IsPrefix.subset (jsTrimRight_isPrefix _) h
  exact (dropWhile_isSuffix isJsWs l).subset h1

/-- C3: the first cleaning step replaces every whitespace run —
newlines included — by a single space, so no newline survives content
cleaning and paragraph breaks are not preserved as blank lines: the
input with a triple newline comes out as a single space, not as one
blank line. -/
theorem cleanContent_newlines_lost :
    cleanContent "a\n\n\nb".toList = "a b".toList ∧
    cleanContent "a\n\n\nb".toList ≠ "a\n\nb".toList ∧
    (∀ l : Str, ∀ c ∈ cleanContent l, c ≠ '\n') := by
  refine ⟨by decide, by decide, ?_⟩
  intro l c hc hcn
  subst hcn
  unfold cleanContent at hc
  have h1 : ('\n' : Char) ∈
      List.filter printable (collapseBlank (collapseWs l)) :=
    mem_of_mem_jsTrim _ _ hc
  have h2 : ('\n' : Char) ∈ collapseBlank (collapseWs l) :=
    (List.mem_filter.mp h1).1
  have h3 : collapseBlank (collapseWs l) = collapseWs l :=
    collapseBlankFuel_id_of_no_nl _ _ (no_nl_collapseWs l false)
  rw [h3] at h2
  exact no_nl_collapseWs l false h2

/-- C3 witness: a character of a concrete cleaned content is not a
newline. -/
theorem cleanContent_newlines_lost_w : ('x' : Char) ≠ '\n' :=
  cleanContent_newlines_lost.2.2 "x".toList 'x' (by decide)

/-- C4 counterexample: cleaning strips only one leading dash-space, so
a second application of `cleanQuote` strips another layer and the
function is not idempotent. -/
theorem cleanQuote_not_idempotent :
    cleanQuote (cleanQuote ("- - x".toList)) ≠
      cleanQuote ("- - x".toList) := by
  decide

/-- C4 (amended): quote cleaning is idempotent on every string whose
cleaned form does not start or end with a quote-like character and does
not start with a dash-space; each pass strips at most one such wrapping
layer, so on already fully unwrapped results a second cleaning is the
identity. -/
theorem cleanQuote_idem (s : Str)
    (h1 : headNotQuote (cleanQuote s) = true)
    (h2 : headNotQuote (cleanQuote s).reverse = true)
    (h3 : List.isPrefixOf ('-' :: ' ' :: ([] : Str)) (cleanQuote s) =
      false) :
    cleanQuote (cleanQuote s) = cleanQuote s := by
  have e0 : cleanQuote s = jsTrim (collapseWs (stripLeadDash
      (stripTrailIf isQuoteChar (stripLeadIf isQuoteChar (jsTrim s))))) :=
    rfl
  have hH : headNotWs (cleanQuote s) = true := by
    rw [e0]; exact headNotWs_jsTrim _
  have hL : headNotWs (cleanQuote s).reverse = true := by
    rw [e0]; exact headNotWs_jsTrim_reverse _
  have e1 : jsTrim (cleanQuote s) = cleanQuote s := jsTrim_id _ hH hL
  have e2 : stripLeadIf isQuoteChar (cleanQuote s) = cleanQuote s := by
    cases hq : cleanQuote s with
    | nil => rfl
    | cons c cs =>
      rw [hq] at h1
      simp only [headNotQuote, Bool.not_eq_true'] at h1
      simp [stripLeadIf, h1]
  have e3 : stripTrailIf isQuoteChar (cleanQuote s) = cleanQuote s := by
    unfold stripTrailIf
    have hrev : stripLeadIf isQuoteChar (cleanQuote s).reverse =
        (cleanQuote s).reverse := by
      cases hq : (cleanQuote s).reverse with
      | nil => rfl
      | cons c cs =>
        rw [hq] at h2
        simp only [headNotQuote, Bool.not_eq_true'] at h2
        simp [stripLeadIf, h2]
    rw [hrev, List.reverse_reverse]
  have e4 : stripLeadDash (cleanQuote s) = cleanQuote s := by
    rw [stripLeadDash.eq_def]
    split
    · rename_i cs heq
      rw [heq] at h3
      simp [List.isPrefixOf] at h3
    · rfl
  have e5 : collapseWs (cleanQuote s) = cleanQuote s := by
    have hspec := collapseWsAux_spec (stripLeadDash
      (stripTrailIf isQuoteChar (stripLeadIf isQuoteChar (jsTrim s))))
      false
    have hsub : ∀ c ∈ cleanQuote s, c ∈ collapseWs (stripLeadDash
        (stripTrailIf isQuoteChar (stripLeadIf isQuoteChar
          (jsTrim s)))) := by
      intro c hc
      rw [e0] at hc
      exact mem_of_mem_jsTrim _ c hc
    have hall_t : ∀ c ∈ cleanQuote s, isJsWs c = true → c = ' ' :=
      fun c hc hw2 => hspec.1 c (hsub c hc) hw2
    have hch_t : List.Chain' nAdj (cleanQuote s) := by
      rw [e0]
      unfold jsTrim
      exact List.Chain'.prefix
        (hspec.2.1.suffix (dropWhile_isSuffix isJsWs _))
        (jsTrimRight_isPrefix _)
    exact (collapseWsAux_id (cleanQuote s) hall_t hch_t).2
  calc cleanQuote (cleanQuote s)
      = jsTrim (collapseWs (stripLeadDash (stripTrailIf isQuoteChar
          (stripLeadIf isQuoteChar (jsTrim (cleanQuote s)))))) := rfl
    _ = cleanQuote s := by rw [e1, e2, e3, e4, e5, e1]

/-- C4 witness: a plain already-clean string is a fixed point. -/
theorem cleanQuote_idem_w :
    cleanQuote (cleanQuote "hello world".toList) =
      cleanQuote "hello world".toList :=
  cleanQuote_idem "hello world".toList (by decide) (by decide)
    (by decide)

end Owens
